import Mathlib

/-!
Verification development for the TRB Annual Meeting survey explorer
(`app.py`): a shallow embedding of its filter-and-aggregation pipeline.

The embedding covers the parts of the program the specification claims are
about:

* load-time normalization of the four columns (`pd.to_numeric(...,
  errors="coerce")`, `pd.Categorical(..., categories=...)`, the
  strip/replace pass over `Organization`);
* the tokenizer `split_orgs` (the regex
  `\s*(,|/|;|\+| and )\s*` split with captured delimiters, modelled as a
  leftmost-match scanner with greedy backtracking over the optional
  whitespace, which is exactly what `re.split` does for this pattern);
* the reactive filter `df_filtered` (four per-record tests, each OR-ed
  with a missing-value pass-through);
* the four aggregations `pie_last5`, `pie_intent`, `pie_tenure`,
  `bar_orgs` (pandas `groupby(...).size()` modelled as first-occurrence
  counting followed by the lexicographic key sort `groupby` performs;
  `pd.Categorical` relabelling of out-of-domain keys to NaN, rendered
  `"nan"` by the later `astype(str)`; `sort_values` as a stable sort with
  NaN last; `value_counts()` as counting followed by a descending stable
  sort; the `d[value_col] > 0` filter of `pie_from_counts`).

Model restrictions (documented, not simplifications of the logic): machine
floats do not appear — the numeric column is modelled for cells that are
optionally `-`-signed decimal integer literals, possibly surrounded by
whitespace, or non-numeric text (Python would additionally parse float
syntax such as `"2.5"`); Python's `\s` and `str.strip` whitespace classes
are modelled by Lean's `Char.isWhitespace` (space, tab, CR, LF); the order
among tied keys in pandas sorts is modelled as stable (first occurrence
first) — no theorem below depends on tie order.
-/

-- ---------------------- Config ----------------------

def INTENT_LEVELS : List String :=
  ["Definitely going", "Probably going", "I don't know", "Probably not going",
   "Definitely not going"]

def TENURE_LEVELS : List String :=
  ["0 to 5 years", "6 to 10 years", "11 to 15 years", "16 or more years"]

-- ---------------------- Data model ----------------------

/-- One row of the CSV after `pd.read_csv(..., dtype=str).fillna("")`:
four string cells, a missing cell being the empty string. -/
structure RawRecord where
  last5 : String
  intent : String
  org : String
  tenure : String
deriving DecidableEq

/-- One row of `BASE_DF` after the typed-normalization block:
`Last5Years` numeric-or-NaN, the two enumerated columns
categorical-or-NaN, `Organization` a (stripped, canonicalized) string. -/
structure Record where
  last5 : Option Int
  intent : Option String
  org : String
  tenure : Option String
deriving DecidableEq

/-- The current filter inputs: the `yr` slider pair and the three
selectize lists (`input.intent()`, `input.tenure()`, `input.orgs()`). -/
structure Selection where
  yr0 : Int
  yr1 : Int
  intents : List String
  tenures : List String
  orgs : List String
deriving DecidableEq

-- ---------------------- Normalization (lines 28-41) ----------------------

/-- Strip leading and trailing whitespace from a character list
(`str.strip()` / `.str.strip()`). Implemented over `List Char` so that it
evaluates inside the kernel. -/
def stripChars (cs : List Char) : List Char :=
  ((cs.dropWhile Char.isWhitespace).reverse.dropWhile Char.isWhitespace).reverse

/-- `str.strip()` on a string. -/
def pyStrip (s : String) : String :=
  String.mk (stripChars s.toList)

/-- Accumulate a decimal digit string into a number; `none` when a
non-digit appears. -/
def digitsToNat (acc : Nat) : List Char → Option Nat
  | [] => some acc
  | c :: cs =>
    if c.isDigit then digitsToNat (acc * 10 + (c.toNat - '0'.toNat)) cs
    else none

/-- Parse an optionally `-`-signed non-empty decimal integer literal. -/
def parseIntChars : List Char → Option Int
  | [] => none
  | '-' :: cs =>
    match cs with
    | [] => none
    | _ => (digitsToNat 0 cs).map (fun n => -(n : Int))
  | cs => (digitsToNat 0 cs).map (fun n => (n : Int))

/-- `pd.to_numeric(col, errors="coerce")` on a string cell: a numeric
literal (whitespace around it ignored) parses to its value, anything
else — including the empty string that `fillna("")` leaves for a missing
cell — coerces to NaN (absent). Modelled for integer literals; see the
module docstring. -/
def toNumericCoerce (s : String) : Option Int :=
  parseIntChars (stripChars s.toList)

/-- `pd.Categorical(col, categories=levels)`: a value in `levels` is kept,
any other value (the empty string included) becomes NaN (absent). -/
def toCategorical (levels : List String) (s : String) : Option String :=
  if s ∈ levels then some s else none

/-- The `Organization` pass: `.str.strip()` followed by `.replace({...})`,
which substitutes only exact full-cell matches of the four listed
variants. -/
def canonOrg (cell : String) : String :=
  let t := pyStrip cell
  if t = "Consultant" then "Consulting"
  else if t = "consultant" then "Consulting"
  else if t = "CONSULTANT" then "Consulting"
  else if t = "software" then "Software"
  else t

/-- The whole typed-normalization block applied to one raw row. -/
def normalizeRecord (r : RawRecord) : Record :=
  ⟨toNumericCoerce r.last5, toCategorical INTENT_LEVELS r.intent,
   canonOrg r.org, toCategorical TENURE_LEVELS r.tenure⟩

/-- `BASE_DF` construction: normalize every row. -/
def BASE_DF (raw : List RawRecord) : List Record :=
  raw.map normalizeRecord

-- ---------------------- Tokenizer (lines 44-48) ----------------------

/-- The five delimiter alternatives of the pattern `(,|/|;|\+| and )`,
tried at the head of the remaining input. The alternatives start with
pairwise distinct characters, so at most one can match at a position and
the alternation order is immaterial. -/
def delimAt : List Char → Option (String × List Char)
  | ',' :: rest => some (",", rest)
  | '/' :: rest => some ("/", rest)
  | ';' :: rest => some (";", rest)
  | '+' :: rest => some ("+", rest)
  | ' ' :: 'a' :: 'n' :: 'd' :: ' ' :: rest => some (" and ", rest)
  | _ => none

/-- Backtracking for the greedy leading `\s*`: try to start the delimiter
after `j` whitespace characters, largest `j` first, exactly as the regex
engine does. -/
def bestLead (cs : List Char) : Nat → Option (String × List Char)
  | 0 => delimAt cs
  | j + 1 =>
    match delimAt (cs.drop (j + 1)) with
    | some r => some r
    | none => bestLead cs j

/-- A match of `\s*(,|/|;|\+| and )\s*` anchored at the head of `cs`:
greedy leading whitespace with backtracking, the captured delimiter, then
greedy trailing whitespace. Returns the captured group and the rest. -/
def matchHere (cs : List Char) : Option (String × List Char) :=
  match bestLead cs (cs.takeWhile Char.isWhitespace).length with
  | some (d, rest) => some (d, rest.dropWhile Char.isWhitespace)
  | none => none

/-- `re.split` with the captured group: scan left to right for the
leftmost match, emit the fragment before it and the captured delimiter,
and continue after the match. `fuel` bounds the recursion; every step
consumes at least one character, so `fuel = length` suffices (the fuel-0
fallback is unreachable then). -/
def reSplitFuel : Nat → List Char → List Char → List String
  | 0, frag, _ => [String.mk frag.reverse]
  | fuel + 1, frag, cs =>
    match matchHere cs with
    | some (d, rest) => String.mk frag.reverse :: d :: reSplitFuel fuel [] rest
    | none =>
      match cs with
      | [] => [String.mk frag.reverse]
      | c :: cs' => reSplitFuel fuel (c :: frag) cs'

/-- `re.split(r"\s*(,|/|;|\+| and )\s*", cell)`. -/
def reSplit (cell : String) : List String :=
  reSplitFuel cell.toList.length [] cell.toList

/-- The delimiter-token set `{",", "/", ";", "+", " and "}` of line 48. -/
def DELIMS : List String := [",", "/", ";", "+", " and "]

/-- `split_orgs` (lines 44-48): empty cell gives `[]`; otherwise the regex
split's parts are kept when truthy (non-empty) and not a delimiter token,
then each kept part is stripped. -/
def split_orgs (cell : String) : List String :=
  if cell = "" then []
  else ((reSplit cell).filter (fun p => decide (p ≠ "" ∧ p ∉ DELIMS))).map
    (fun p => pyStrip p)

-- ---------------------- Specification-side tokenizer (for comparison) ----------------------

/-- Splitting as the specification words it: cut at every (leftmost,
non-overlapping) occurrence of one of the five delimiter tokens, with no
whitespace absorbed around the occurrence. Emits only the fragments.
`fuel` bounds the recursion as in `reSplitFuel`. -/
def specSplitFuel : Nat → List Char → List Char → List String
  | 0, frag, _ => [String.mk frag.reverse]
  | fuel + 1, frag, cs =>
    match delimAt cs with
    | some (_, rest) => String.mk frag.reverse :: specSplitFuel fuel [] rest
    | none =>
      match cs with
      | [] => [String.mk frag.reverse]
      | c :: cs' => specSplitFuel fuel (c :: frag) cs'

/-- The tokenizer exactly as the claim describes it: the whitespace-trimmed
fragments obtained by splitting on every occurrence of comma, slash,
semicolon, plus sign, or the word `" and "`, with empty fragments and
fragments that are themselves delimiter tokens discarded. Written from the
specification's words, to be compared with `split_orgs` (the code). -/
def specTokenize (cell : String) : List String :=
  ((specSplitFuel cell.toList.length [] cell.toList).map pyStrip).filter
    (fun p => decide (p ≠ "" ∧ p ∉ DELIMS))

/-- Decidable check that no delimiter token occurs anywhere in `cs`. -/
def noDelimAnywhere (cs : List Char) : Bool :=
  (List.range (cs.length + 1)).all (fun n => (delimAt (cs.drop n)).isNone)


-- ---------------------- Filter (lines 112-139) ----------------------

/-- `.astype(str)` on the categorical column: a present value prints as
itself, NaN prints as `"nan"`. -/
def catStr : Option String → String
  | some s => s
  | none => "nan"

/-- Line 118: `df["Last5Years"].isna() | ((df["Last5Years"] >= yr0) &
(df["Last5Years"] <= yr1))`. -/
def rangePred (sel : Selection) (r : Record) : Bool :=
  match r.last5 with
  | none => true
  | some v => decide (sel.yr0 ≤ v) && decide (v ≤ sel.yr1)

/-- Lines 121-123: when the intent selection is non-empty, keep rows whose
stringified intent is selected or whose intent is NaN. -/
def intentPred (sel : Selection) (r : Record) : Bool :=
  if sel.intents.isEmpty then true
  else decide (catStr r.intent ∈ sel.intents) || r.intent.isNone

/-- Lines 126-128: the same test for tenure. -/
def tenurePred (sel : Selection) (r : Record) : Bool :=
  if sel.tenures.isEmpty then true
  else decide (catStr r.tenure ∈ sel.tenures) || r.tenure.isNone

/-- Lines 131-137: when the org selection is non-empty, keep rows whose
token set is empty or meets the selection (`(not toks) or bool(toks &
sel_orgs)`). -/
def orgPred (sel : Selection) (r : Record) : Bool :=
  if sel.orgs.isEmpty then true
  else
    let toks := split_orgs r.org
    toks.isEmpty || toks.any (fun t => decide (t ∈ sel.orgs))

/-- `df_filtered` (lines 113-139): the four row masks applied in
sequence, which is the conjunction of the four per-record tests; relative
order is preserved (`reset_index` only renumbers). -/
def df_filtered (df : List Record) (sel : Selection) : List Record :=
  df.filter (fun r =>
    rangePred sel r && intentPred sel r && tenurePred sel r && orgPred sel r)

-- ---------------------- Aggregations (lines 148-221) ----------------------

/-- `_label_na` (lines 50-52): replace NaN by `"Unspecified"`. -/
def labelNA : Option String → String
  | some s => s
  | none => "Unspecified"

/-- The `Last5Years` label of lines 165-166: `astype("Int64")`,
`_label_na`, `astype(str)` — i.e. `str(v)` for a present value and
`"Unspecified"` for NaN. -/
def last5Label : Option Int → String
  | some v => toString v
  | none => "Unspecified"

/-- One step of first-occurrence counting: increment the entry for `l`,
or append `(l, 1)` when `l` has no entry yet. -/
def bump (l : String) : List (String × Nat) → List (String × Nat)
  | [] => [(l, 1)]
  | (k, n) :: t => if k = l then (k, n + 1) :: t else (k, n) :: bump l t

/-- Count occurrences of each distinct label, keyed in first-occurrence
order. -/
def groupCountsAux (acc : List (String × Nat)) : List String → List (String × Nat)
  | [] => acc
  | l :: ls => groupCountsAux (bump l acc) ls

/-- Occurrence counts per distinct label, in first-occurrence order. -/
def groupCounts (ls : List String) : List (String × Nat) :=
  groupCountsAux [] ls

/-- Lexicographic (code-point) comparison of character lists, the order
pandas uses to sort string group keys. -/
def chListLt : List Char → List Char → Bool
  | [], [] => false
  | [], _ :: _ => true
  | _ :: _, [] => false
  | a :: as, b :: bs => if a < b then true else if b < a then false else chListLt as bs

/-- Lexicographic string comparison. -/
def strLtB (s t : String) : Bool :=
  chListLt s.toList t.toList

/-- Stable insertion for `sortB`: `ltb x y = true` means `x` must precede
`y` strictly; `a` is inserted before the first element that need not
precede it, so earlier input elements stay before tied later ones. -/
def insB (ltb : α → α → Bool) (a : α) : List α → List α
  | [] => [a]
  | h :: t => if ltb h a then h :: insB ltb a t else a :: h :: t

/-- Stable insertion sort. -/
def sortB (ltb : α → α → Bool) : List α → List α
  | [] => []
  | h :: t => insB ltb h (sortB ltb t)

/-- `groupby(label).size()` with pandas' default `sort=True`: occurrence
counts per distinct key, keys sorted lexicographically. -/
def groupbySize (labels : List String) : List (String × Nat) :=
  sortB (fun a b => strLtB a.1 b.1) (groupCounts labels)

/-- The relabelling half of `pd.Categorical(agg[col], categories=order,
ordered=True)`: keys outside `order` become NaN, which the later
`astype(str)` / f-string prints as `"nan"`. -/
def naRelabel (order : List String) (agg : List (String × Nat)) :
    List (String × Nat) :=
  agg.map (fun e => (if e.1 ∈ order then e.1 else "nan", e.2))

/-- `pd.Categorical(agg[col], categories=order, ordered=True)` followed by
`agg.sort_values(col)`: rows sorted by key position in `order` with NaN
last (`List.indexOf` returns `order.length` for a missing key, which
places it after every domain key, matching `na_position="last"`). -/
def categoricalSort (order : List String) (agg : List (String × Nat)) :
    List (String × Nat) :=
  sortB (fun a b => decide (order.indexOf a.1 < order.indexOf b.1))
    (naRelabel order agg)

/-- The data-shaping part of `pie_from_counts` (line 149): drop zero-count
rows (`d[d[value_col] > 0]`). -/
def pieFromCounts (agg : List (String × Nat)) : List (String × Nat) :=
  agg.filter (fun e => decide (0 < e.2))

/-- The category order of `pie_last5` (line 167):
`[str(i) for i in range(0, 6)] + ["Unspecified"]`. -/
def LAST5_ORDER : List String :=
  (List.range 6).map (fun i => toString i) ++ ["Unspecified"]

/-- The label formatting of lines 173-175:
`f"{x} time{'s' if x not in ['1','Unspecified'] else ''}"`. -/
def fmtLast5 (x : String) : String :=
  x ++ " time" ++ (if x = "1" ∨ x = "Unspecified" then "" else "s")

/-- The count series behind the `pie_last5` chart (lines 161-177). -/
def pie_last5 (d : List Record) : List (String × Nat) :=
  pieFromCounts
    ((categoricalSort LAST5_ORDER
        (groupbySize (d.map (fun r => last5Label r.last5)))).map
      (fun e => (fmtLast5 e.1, e.2)))

/-- The count series behind the `pie_intent` chart (lines 180-189). -/
def pie_intent (d : List Record) : List (String × Nat) :=
  pieFromCounts (categoricalSort (INTENT_LEVELS ++ ["Unspecified"])
    (groupbySize (d.map (fun r => labelNA r.intent))))

/-- The count series behind the `pie_tenure` chart (lines 212-221). -/
def pie_tenure (d : List Record) : List (String × Nat) :=
  pieFromCounts (categoricalSort (TENURE_LEVELS ++ ["Unspecified"])
    (groupbySize (d.map (fun r => labelNA r.tenure))))

/-- The count series behind the `bar_orgs` chart (lines 192-209): explode
every row's `split_orgs` token list (duplicates kept) into one flat list,
then `value_counts()` — occurrence counts sorted by descending count. -/
def bar_orgs (d : List Record) : List (String × Nat) :=
  sortB (fun a b => decide (b.2 < a.2))
    (groupCounts (d.flatMap (fun r => split_orgs r.org)))

-- ---------------------- Series observables ----------------------

/-- Total of all counts in a series. -/
def sumCounts : List (String × Nat) → Nat
  | [] => 0
  | e :: t => e.2 + sumCounts t

/-- Total count recorded for one label in a series. -/
def seriesCount : List (String × Nat) → String → Nat
  | [], _ => 0
  | e :: t, k => (if e.1 = k then e.2 else 0) + seriesCount t k

/-- Occurrences of a label in a list of labels. -/
def countLabel : List String → String → Nat
  | [], _ => 0
  | s :: t, k => (if s = k then 1 else 0) + countLabel t k


-- ---------------------- Concrete inputs for claim instances ----------------------

/-- R1 of the spec's end-to-end scenario (raw CSV row). -/
def R1raw : RawRecord := ⟨"2", "Definitely going", "DOT", "0 to 5 years"⟩

/-- R2 of the scenario: absent attendance count and tenure, multi-valued
organization cell. -/
def R2raw : RawRecord := ⟨"", "Probably going", "Consultant, DOT", ""⟩

/-- R3 of the scenario: absent intent. -/
def R3raw : RawRecord := ⟨"5", "", "Software", "16 or more years"⟩

/-- The scenario dataset. -/
def scenarioRaw : List RawRecord := [R1raw, R2raw, R3raw]

/-- The scenario selection: range `[0,5]`, all intents, all tenures,
orgs = `{"DOT"}`. -/
def scenarioSel : Selection := ⟨0, 5, INTENT_LEVELS, TENURE_LEVELS, ["DOT"]⟩

/-- The scenario's filtered dataset. -/
def scenarioF : List Record := df_filtered (BASE_DF scenarioRaw) scenarioSel

/-- The all-pass selection: full slider range, no categorical or org
restriction. -/
def selAll : Selection := ⟨0, 5, [], [], []⟩

/-- An inverted numeric range (`yr0 > yr1`), no other restriction. -/
def selInv : Selection := ⟨3, 1, [], [], []⟩

/-- A raw row whose attendance-count cell is empty (absent). -/
def rawAbsLast5 : RawRecord := ⟨"", "Definitely going", "DOT", "0 to 5 years"⟩

/-- A raw row whose attendance-count cell is out of the poll's 0..5
range but parseable. -/
def raw7 : RawRecord := ⟨"7", "Definitely going", "DOT", "0 to 5 years"⟩

/-- A raw row whose organization cell repeats one token. -/
def rawDup : RawRecord := ⟨"", "", "DOT, DOT", ""⟩


-- ---------------------- General lemmas: counting ----------------------

theorem sumCounts_bump (l : String) (acc : List (String × Nat)) :
    sumCounts (bump l acc) = sumCounts acc + 1 := by
  induction acc with
  | nil => simp [bump, sumCounts]
  | cons e t ih =>
    obtain ⟨k, n⟩ := e
    by_cases h : k = l
    · simp only [bump, if_pos h, sumCounts]
      omega
    · simp only [bump, if_neg h, sumCounts, ih]
      omega

theorem sumCounts_groupCountsAux (ls : List String) :
    ∀ acc, sumCounts (groupCountsAux acc ls) = sumCounts acc + ls.length := by
  induction ls with
  | nil => intro acc; simp [groupCountsAux]
  | cons l t ih =>
    intro acc
    simp only [groupCountsAux, ih, sumCounts_bump, List.length_cons]
    omega

theorem sumCounts_groupCounts (ls : List String) :
    sumCounts (groupCounts ls) = ls.length := by
  simp [groupCounts, sumCounts_groupCountsAux, sumCounts]

theorem seriesCount_bump (l k : String) (acc : List (String × Nat)) :
    seriesCount (bump l acc) k
      = seriesCount acc k + (if l = k then 1 else 0) := by
  induction acc with
  | nil =>
    by_cases h : l = k <;> simp [bump, seriesCount, h]
  | cons e t ih =>
    obtain ⟨k', n⟩ := e
    by_cases h : k' = l
    · subst h
      simp only [bump, if_pos rfl, seriesCount]
      by_cases h2 : k' = k
      · simp [h2]
        omega
      · simp [h2]
    · simp only [bump, if_neg h, seriesCount, ih]
      omega

theorem seriesCount_groupCountsAux (k : String) (ls : List String) :
    ∀ acc, seriesCount (groupCountsAux acc ls) k
      = seriesCount acc k + countLabel ls k := by
  induction ls with
  | nil => intro acc; simp [groupCountsAux, countLabel]
  | cons l t ih =>
    intro acc
    simp only [groupCountsAux, ih, seriesCount_bump, countLabel]
    omega

theorem seriesCount_groupCounts (k : String) (ls : List String) :
    seriesCount (groupCounts ls) k = countLabel ls k := by
  simp [groupCounts, seriesCount_groupCountsAux, seriesCount]

theorem pos_bump (l : String) (acc : List (String × Nat))
    (h : ∀ e ∈ acc, 0 < e.2) : ∀ e ∈ bump l acc, 0 < e.2 := by
  induction acc with
  | nil => simp [bump]
  | cons a t ih =>
    obtain ⟨k, n⟩ := a
    intro e he
    by_cases hk : k = l
    · rw [bump, if_pos hk] at he
      rcases List.mem_cons.mp he with he | he
      · subst he; simp
      · exact h e (List.mem_cons_of_mem _ he)
    · rw [bump, if_neg hk] at he
      rcases List.mem_cons.mp he with he | he
      · subst he; exact h (k, n) (List.mem_cons_self _ _)
      · exact ih (fun e' he' => h e' (List.mem_cons_of_mem _ he')) e he

theorem pos_groupCountsAux (ls : List String) :
    ∀ acc, (∀ e ∈ acc, 0 < e.2) →
      ∀ e ∈ groupCountsAux acc ls, 0 < e.2 := by
  induction ls with
  | nil => intro acc h; simpa [groupCountsAux] using h
  | cons l t ih =>
    intro acc h
    exact ih (bump l acc) (pos_bump l acc h)

theorem pos_groupCounts (ls : List String) :
    ∀ e ∈ groupCounts ls, 0 < e.2 :=
  pos_groupCountsAux ls [] (by simp)

theorem keys_bump (l : String) (acc : List (String × Nat)) :
    (bump l acc).map Prod.fst
      = if l ∈ acc.map Prod.fst then acc.map Prod.fst
        else acc.map Prod.fst ++ [l] := by
  induction acc with
  | nil => simp [bump]
  | cons a t ih =>
    obtain ⟨k, n⟩ := a
    by_cases hk : k = l
    · rw [bump, if_pos hk]
      have hm : l ∈ ((k, n) :: t).map Prod.fst := by simp [hk]
      rw [if_pos hm]
      simp
    · rw [bump, if_neg hk]
      by_cases hm : l ∈ t.map Prod.fst
      · have hm' : l ∈ ((k, n) :: t).map Prod.fst := by simp [hm]
        rw [if_pos hm']
        simp [ih, hm]
      · have hm' : l ∉ ((k, n) :: t).map Prod.fst := by
          simp only [List.map_cons, List.mem_cons, not_or]
          exact ⟨fun h => hk h.symm, by simpa using hm⟩
        rw [if_neg hm']
        simp [ih, hm]

theorem keys_nodup_bump (l : String) (acc : List (String × Nat))
    (h : (acc.map Prod.fst).Nodup) : ((bump l acc).map Prod.fst).Nodup := by
  rw [keys_bump]
  by_cases hm : l ∈ acc.map Prod.fst
  · simpa [hm] using h
  · rw [if_neg hm]
    refine List.Nodup.append h (by simp) ?_
    intro x hx hxl
    simp at hxl
    subst hxl
    exact hm hx

theorem keys_nodup_groupCountsAux (ls : List String) :
    ∀ acc, (acc.map Prod.fst).Nodup →
      ((groupCountsAux acc ls).map Prod.fst).Nodup := by
  induction ls with
  | nil => intro acc h; simpa [groupCountsAux] using h
  | cons l t ih =>
    intro acc h
    exact ih (bump l acc) (keys_nodup_bump l acc h)

theorem keys_nodup_groupCounts (ls : List String) :
    ((groupCounts ls).map Prod.fst).Nodup :=
  keys_nodup_groupCountsAux ls [] (by simp)

theorem key_mem_bump (l : String) (acc : List (String × Nat)) :
    ∀ e ∈ bump l acc, e.1 = l ∨ e.1 ∈ acc.map Prod.fst := by
  intro e he
  have hmem : e.1 ∈ (bump l acc).map Prod.fst := List.mem_map_of_mem Prod.fst he
  rw [keys_bump] at hmem
  by_cases hm : l ∈ acc.map Prod.fst
  · right; simpa [hm] using hmem
  · rw [if_neg hm] at hmem
    rcases List.mem_append.mp hmem with h | h
    · right; exact h
    · left; simpa using h

theorem key_mem_groupCountsAux (ls : List String) :
    ∀ acc, ∀ e ∈ groupCountsAux acc ls,
      e.1 ∈ acc.map Prod.fst ∨ e.1 ∈ ls := by
  induction ls with
  | nil =>
    intro acc e he
    left
    exact List.mem_map_of_mem Prod.fst he
  | cons l t ih =>
    intro acc e he
    rcases ih (bump l acc) e he with h | h
    · rw [keys_bump] at h
      by_cases hm : l ∈ acc.map Prod.fst
      · rw [if_pos hm] at h
        left; exact h
      · rw [if_neg hm] at h
        rcases List.mem_append.mp h with h | h
        · left; exact h
        · right
          simp at h
          simp [h]
    · right
      exact List.mem_cons_of_mem _ h

theorem key_mem_groupCounts (ls : List String) :
    ∀ e ∈ groupCounts ls, e.1 ∈ ls := by
  intro e he
  rcases key_mem_groupCountsAux ls [] e he with h | h
  · simp at h
  · exact h

-- ---------------------- General lemmas: sorting ----------------------

theorem insB_perm (ltb : α → α → Bool) (a : α) (l : List α) :
    List.Perm (insB ltb a l) (a :: l) := by
  induction l with
  | nil => simp [insB]
  | cons h t ih =>
    by_cases hc : ltb h a
    · simp only [insB, hc, if_true]
      exact (ih.cons h).trans (List.Perm.swap a h t)
    · simp [insB, hc]

theorem sortB_perm (ltb : α → α → Bool) (l : List α) :
    List.Perm (sortB ltb l) l := by
  induction l with
  | nil => simp [sortB]
  | cons h t ih =>
    exact (insB_perm ltb h (sortB ltb t)).trans (ih.cons h)

theorem pairwise_insB {R : α → α → Prop} (ltb : α → α → Bool)
    (hT : ∀ a b, ltb a b = true → R a b)
    (hF : ∀ a b, ltb a b = false → R b a)
    (hTr : ∀ a b c, R a b → R b c → R a c)
    (a : α) (l : List α) (hl : l.Pairwise R) :
    (insB ltb a l).Pairwise R := by
  induction l with
  | nil => simp [insB]
  | cons b t ih =>
    rw [List.pairwise_cons] at hl
    by_cases hc : ltb b a
    · simp only [insB, hc, if_true]
      rw [List.pairwise_cons]
      refine ⟨?_, ih hl.2⟩
      intro y hy
      rcases List.mem_cons.mp ((insB_perm ltb a t).mem_iff.mp hy) with hy' | hy'
      · rw [hy']; exact hT b a hc
      · exact hl.1 y hy'
    · have hc' : ltb b a = false := by simpa using hc
      simp only [insB, hc', Bool.false_eq_true, if_false]
      rw [List.pairwise_cons]
      refine ⟨?_, List.pairwise_cons.mpr hl⟩
      intro y hy
      rcases List.mem_cons.mp hy with hy' | hy'
      · rw [hy']; exact hF b a hc'
      · exact hTr a b y (hF b a hc') (hl.1 y hy')

theorem pairwise_sortB {R : α → α → Prop} (ltb : α → α → Bool)
    (hT : ∀ a b, ltb a b = true → R a b)
    (hF : ∀ a b, ltb a b = false → R b a)
    (hTr : ∀ a b c, R a b → R b c → R a c)
    (l : List α) : (sortB ltb l).Pairwise R := by
  induction l with
  | nil => simp [sortB]
  | cons h t ih => exact pairwise_insB ltb hT hF hTr h (sortB ltb t) ih

theorem sumCounts_perm {l₁ l₂ : List (String × Nat)}
    (h : List.Perm l₁ l₂) : sumCounts l₁ = sumCounts l₂ := by
  induction h with
  | nil => rfl
  | cons x _ ih => simp [sumCounts, ih]
  | swap x y l => simp only [sumCounts]; omega
  | trans _ _ ih₁ ih₂ => omega

theorem seriesCount_perm {l₁ l₂ : List (String × Nat)}
    (h : List.Perm l₁ l₂) (k : String) :
    seriesCount l₁ k = seriesCount l₂ k := by
  induction h with
  | nil => rfl
  | cons x _ ih => simp [seriesCount, ih]
  | swap x y l => simp only [seriesCount]; omega
  | trans _ _ ih₁ ih₂ => omega

-- ---------------------- General lemmas: pipeline stages ----------------------

theorem sumCounts_mapKey (f : String → String) (l : List (String × Nat)) :
    sumCounts (l.map (fun e => (f e.1, e.2))) = sumCounts l := by
  induction l with
  | nil => rfl
  | cons e t ih => simp [sumCounts, ih]

theorem pos_mapKey (f : String → String) (l : List (String × Nat))
    (h : ∀ e ∈ l, 0 < e.2) :
    ∀ e ∈ l.map (fun e => (f e.1, e.2)), 0 < e.2 := by
  intro e he
  rcases List.mem_map.mp he with ⟨e', he', rfl⟩
  exact h e' he'

theorem mapKey_id (f : String → String) (l : List (String × Nat))
    (h : ∀ e ∈ l, f e.1 = e.1) : l.map (fun e => (f e.1, e.2)) = l := by
  induction l with
  | nil => rfl
  | cons e t ih =>
    obtain ⟨k, n⟩ := e
    simp only [List.map_cons]
    rw [h (k, n) (List.mem_cons_self _ _),
      ih (fun e' he' => h e' (List.mem_cons_of_mem _ he'))]

theorem sumCounts_naRelabel (order : List String) (agg : List (String × Nat)) :
    sumCounts (naRelabel order agg) = sumCounts agg := by
  unfold naRelabel
  exact sumCounts_mapKey (fun x => if x ∈ order then x else "nan") agg

theorem pos_naRelabel (order : List String) (agg : List (String × Nat))
    (h : ∀ e ∈ agg, 0 < e.2) : ∀ e ∈ naRelabel order agg, 0 < e.2 := by
  unfold naRelabel
  exact pos_mapKey (fun x => if x ∈ order then x else "nan") agg h

theorem naRelabel_id (order : List String) (agg : List (String × Nat))
    (h : ∀ e ∈ agg, e.1 ∈ order) : naRelabel order agg = agg := by
  unfold naRelabel
  exact mapKey_id (fun x => if x ∈ order then x else "nan") agg
    (fun e he => if_pos (h e he))

theorem sumCounts_categoricalSort (order : List String)
    (agg : List (String × Nat)) :
    sumCounts (categoricalSort order agg) = sumCounts agg := by
  unfold categoricalSort
  rw [sumCounts_perm (sortB_perm _ (naRelabel order agg)),
    sumCounts_naRelabel]

theorem pos_categoricalSort (order : List String) (agg : List (String × Nat))
    (h : ∀ e ∈ agg, 0 < e.2) : ∀ e ∈ categoricalSort order agg, 0 < e.2 :=
  fun e he =>
    pos_naRelabel order agg h e
      ((sortB_perm _ (naRelabel order agg)).mem_iff.mp he)

theorem categoricalSort_perm_of_keys (order : List String)
    (agg : List (String × Nat)) (h : ∀ e ∈ agg, e.1 ∈ order) :
    List.Perm (categoricalSort order agg) agg := by
  rw [categoricalSort, naRelabel_id order agg h]
  exact sortB_perm _ agg

theorem pieFromCounts_of_pos (l : List (String × Nat))
    (h : ∀ e ∈ l, 0 < e.2) : pieFromCounts l = l := by
  unfold pieFromCounts
  rw [List.filter_eq_self]
  intro e he
  simpa using h e he

theorem groupbySize_perm (labels : List String) :
    List.Perm (groupbySize labels) (groupCounts labels) :=
  sortB_perm _ _

theorem pos_groupbySize (labels : List String) :
    ∀ e ∈ groupbySize labels, 0 < e.2 :=
  fun e he =>
    pos_groupCounts labels e ((groupbySize_perm labels).mem_iff.mp he)

theorem key_mem_groupbySize (labels : List String) :
    ∀ e ∈ groupbySize labels, e.1 ∈ labels :=
  fun e he =>
    key_mem_groupCounts labels e ((groupbySize_perm labels).mem_iff.mp he)

theorem sumCounts_groupbySize (labels : List String) :
    sumCounts (groupbySize labels) = labels.length := by
  rw [sumCounts_perm (groupbySize_perm labels), sumCounts_groupCounts]

theorem seriesCount_groupbySize (labels : List String) (k : String) :
    seriesCount (groupbySize labels) k = countLabel labels k := by
  rw [seriesCount_perm (groupbySize_perm labels), seriesCount_groupCounts]

theorem sumCounts_pieCore (order : List String) (labels : List String) :
    sumCounts (pieFromCounts (categoricalSort order (groupbySize labels)))
      = labels.length := by
  rw [pieFromCounts_of_pos _
      (pos_categoricalSort order _ (pos_groupbySize labels)),
    sumCounts_categoricalSort, sumCounts_groupbySize]

theorem seriesCount_pieCore (order : List String) (labels : List String)
    (hk : ∀ l ∈ labels, l ∈ order) (k : String) :
    seriesCount (pieFromCounts (categoricalSort order (groupbySize labels))) k
      = countLabel labels k := by
  rw [pieFromCounts_of_pos _
      (pos_categoricalSort order _ (pos_groupbySize labels))]
  rw [seriesCount_perm
      (categoricalSort_perm_of_keys order _
        (fun e he => hk e.1 (key_mem_groupbySize labels e he)))]
  exact seriesCount_groupbySize labels k

-- ---------------------- General lemmas: filter ----------------------

theorem mem_df_filtered {df : List Record} {sel : Selection} {r : Record} :
    r ∈ df_filtered df sel ↔
      r ∈ df ∧ rangePred sel r = true ∧ intentPred sel r = true ∧
        tenurePred sel r = true ∧ orgPred sel r = true := by
  unfold df_filtered
  simp [List.mem_filter, Bool.and_eq_true, and_assoc]

theorem mem_of_mem_df_filtered {df : List Record} {sel : Selection}
    {r : Record} (h : r ∈ df_filtered df sel) : r ∈ df :=
  (mem_df_filtered.mp h).1

theorem rangePred_of_none (sel : Selection) (r : Record)
    (h : r.last5 = none) : rangePred sel r = true := by
  simp [rangePred, h]

theorem intentPred_of_none (sel : Selection) (r : Record)
    (h : r.intent = none) : intentPred sel r = true := by
  simp [intentPred, h]

theorem tenurePred_of_none (sel : Selection) (r : Record)
    (h : r.tenure = none) : tenurePred sel r = true := by
  simp [tenurePred, h]

theorem orgPred_of_empty (sel : Selection) (r : Record)
    (h : split_orgs r.org = []) : orgPred sel r = true := by
  simp [orgPred, h]

theorem rangePred_some {sel : Selection} {r : Record} {v : Int}
    (hv : r.last5 = some v) (h : rangePred sel r = true) :
    sel.yr0 ≤ v ∧ v ≤ sel.yr1 := by
  rw [rangePred, hv] at h
  simpa using h

-- ---------------------- General lemmas: normalization ----------------------

theorem toCategorical_some {levels : List String} {s' s : String}
    (h : toCategorical levels s' = some s) : s ∈ levels := by
  unfold toCategorical at h
  by_cases hm : s' ∈ levels
  · rw [if_pos hm] at h
    simp at h
    rw [← h]
    exact hm
  · rw [if_neg hm] at h
    cases h

theorem BASE_DF_intent {raw : List RawRecord} {r : Record}
    (h : r ∈ BASE_DF raw) : ∀ s, r.intent = some s → s ∈ INTENT_LEVELS := by
  rcases List.mem_map.mp h with ⟨x, _, rfl⟩
  intro s hs
  exact toCategorical_some hs

theorem BASE_DF_tenure {raw : List RawRecord} {r : Record}
    (h : r ∈ BASE_DF raw) : ∀ s, r.tenure = some s → s ∈ TENURE_LEVELS := by
  rcases List.mem_map.mp h with ⟨x, _, rfl⟩
  intro s hs
  exact toCategorical_some hs

-- ---------------------- General lemmas: chart series ----------------------

theorem labelNA_mem {levels : List String} (v : Option String)
    (h : ∀ s, v = some s → s ∈ levels) :
    labelNA v ∈ levels ++ ["Unspecified"] := by
  cases v with
  | none => simp [labelNA]
  | some s => simp [labelNA, h s rfl]

theorem countLabel_labelNA (g : Record → Option String) (d : List Record)
    (h : ∀ r ∈ d, g r ≠ some "Unspecified") :
    countLabel (d.map (fun r => labelNA (g r))) "Unspecified"
      = (d.filter (fun r => (g r).isNone)).length := by
  induction d with
  | nil => rfl
  | cons r t ih =>
    have ih' := ih (fun r' hr' => h r' (List.mem_cons_of_mem _ hr'))
    simp only [labelNA] at ih'
    simp only [List.map_cons, countLabel, List.filter_cons]
    by_cases hn : (g r).isNone = true
    · have hg : g r = none := Option.isNone_iff_eq_none.mp hn
      simp only [hg, labelNA, Option.isNone_none, if_true]
      simp [ih']
      omega
    · have hex : ∃ s, g r = some s := by
        cases hgr : g r with
        | none => rw [hgr] at hn; simp at hn
        | some s => exact ⟨s, rfl⟩
      obtain ⟨s, hg⟩ := hex
      have hs : ¬ s = "Unspecified" := fun hs =>
        h r (List.mem_cons_self _ _) (by rw [hg, hs])
      simp only [hg, labelNA, Option.isNone_some]
      simp [hs, ih']

theorem pie_intent_sum (d : List Record) :
    sumCounts (pie_intent d) = d.length := by
  unfold pie_intent
  rw [sumCounts_pieCore]
  simp

theorem pie_tenure_sum (d : List Record) :
    sumCounts (pie_tenure d) = d.length := by
  unfold pie_tenure
  rw [sumCounts_pieCore]
  simp

theorem pie_last5_sum (d : List Record) :
    sumCounts (pie_last5 d) = d.length := by
  unfold pie_last5
  rw [pieFromCounts_of_pos _
      (pos_mapKey fmtLast5 _
        (pos_categoricalSort LAST5_ORDER _ (pos_groupbySize _))),
    sumCounts_mapKey fmtLast5, sumCounts_categoricalSort,
    sumCounts_groupbySize]
  simp

theorem pie_intent_seriesCount (d : List Record)
    (hd : ∀ r ∈ d, ∀ s, r.intent = some s → s ∈ INTENT_LEVELS) (k : String) :
    seriesCount (pie_intent d) k
      = countLabel (d.map (fun r => labelNA r.intent)) k := by
  unfold pie_intent
  rw [seriesCount_pieCore]
  intro l hl
  rcases List.mem_map.mp hl with ⟨r, hr, rfl⟩
  exact labelNA_mem r.intent (hd r hr)

theorem pie_tenure_seriesCount (d : List Record)
    (hd : ∀ r ∈ d, ∀ s, r.tenure = some s → s ∈ TENURE_LEVELS) (k : String) :
    seriesCount (pie_tenure d) k
      = countLabel (d.map (fun r => labelNA r.tenure)) k := by
  unfold pie_tenure
  rw [seriesCount_pieCore]
  intro l hl
  rcases List.mem_map.mp hl with ⟨r, hr, rfl⟩
  exact labelNA_mem r.tenure (hd r hr)

-- ---------------------- General lemmas: label distinctness ----------------------

theorem keys_nodup_perm {l₁ l₂ : List (String × Nat)} (h : List.Perm l₁ l₂)
    (hn : (l₂.map Prod.fst).Nodup) : (l₁.map Prod.fst).Nodup :=
  (List.Perm.nodup_iff (h.map Prod.fst)).mpr hn

theorem keys_nodup_groupbySize (labels : List String) :
    ((groupbySize labels).map Prod.fst).Nodup :=
  keys_nodup_perm (groupbySize_perm labels) (keys_nodup_groupCounts labels)

theorem keys_nodup_pieFromCounts (l : List (String × Nat))
    (h : (l.map Prod.fst).Nodup) :
    ((pieFromCounts l).map Prod.fst).Nodup :=
  List.Nodup.sublist (List.Sublist.map Prod.fst (List.filter_sublist l)) h

theorem keys_nodup_pieCore (order : List String) (labels : List String)
    (hk : ∀ l ∈ labels, l ∈ order) :
    ((pieFromCounts (categoricalSort order (groupbySize labels))).map
      Prod.fst).Nodup :=
  keys_nodup_pieFromCounts _
    (keys_nodup_perm
      (categoricalSort_perm_of_keys order _
        (fun e he => hk e.1 (key_mem_groupbySize labels e he)))
      (keys_nodup_groupbySize labels))

theorem key_mem_categoricalSort_of_keys (order : List String)
    (agg : List (String × Nat)) (h : ∀ e ∈ agg, e.1 ∈ order) :
    ∀ e ∈ categoricalSort order agg, e.1 ∈ order :=
  fun e he =>
    h e ((categoricalSort_perm_of_keys order agg h).mem_iff.mp he)

-- ---------------------- General lemmas: bar_orgs ----------------------

theorem bar_orgs_seriesCount (d : List Record) (k : String) :
    seriesCount (bar_orgs d) k
      = countLabel (d.flatMap (fun r => split_orgs r.org)) k := by
  unfold bar_orgs
  rw [seriesCount_perm (sortB_perm _ _), seriesCount_groupCounts]

theorem bar_orgs_sorted (d : List Record) :
    (bar_orgs d).Pairwise (fun a b => b.2 ≤ a.2) := by
  unfold bar_orgs
  refine pairwise_sortB _ ?_ ?_ ?_ _
  · intro a b h
    have := of_decide_eq_true h
    omega
  · intro a b h
    have := of_decide_eq_false h
    omega
  · intro a b c h₁ h₂
    omega

theorem bar_orgs_key_mem (d : List Record) :
    ∀ e ∈ bar_orgs d, ∃ r ∈ d, e.1 ∈ split_orgs r.org := by
  intro e he
  have h1 : e ∈ groupCounts (d.flatMap (fun r => split_orgs r.org)) :=
    (sortB_perm _ _).mem_iff.mp he
  have h2 := key_mem_groupCounts _ e h1
  rcases List.mem_flatMap.mp h2 with ⟨r, hr, ht⟩
  exact ⟨r, hr, ht⟩

theorem bar_orgs_pos (d : List Record) : ∀ e ∈ bar_orgs d, 0 < e.2 :=
  fun e he => pos_groupCounts _ e ((sortB_perm _ _).mem_iff.mp he)

theorem keys_nodup_bar_orgs (d : List Record) :
    ((bar_orgs d).map Prod.fst).Nodup :=
  keys_nodup_perm (sortB_perm _ _) (keys_nodup_groupCounts _)

-- ---------------------- General lemmas: attendance labels ----------------------

theorem int_toString_mem_LAST5 : ∀ v : Int, 0 ≤ v → v ≤ 5 →
    toString v ∈ LAST5_ORDER := by
  intro v h1 h2
  interval_cases v <;> decide

theorem last5Label_mem_order {sel : Selection} {r : Record}
    (h : rangePred sel r = true) (h0 : 0 ≤ sel.yr0) (h5 : sel.yr1 ≤ 5) :
    last5Label r.last5 ∈ LAST5_ORDER := by
  cases hv : r.last5 with
  | none =>
    show "Unspecified" ∈ LAST5_ORDER
    decide
  | some v =>
    obtain ⟨hl, hr⟩ := rangePred_some hv h
    show toString v ∈ LAST5_ORDER
    exact int_toString_mem_LAST5 v (by omega) (by omega)

theorem fmtLast5_inj_on : ∀ x ∈ LAST5_ORDER, ∀ y ∈ LAST5_ORDER,
    fmtLast5 x = fmtLast5 y → x = y := by decide

-- ---------------------- General lemmas: delimiter-free cells ----------------------

theorem delimAt_none_of_noDelim (cs : List Char)
    (h : noDelimAnywhere cs = true) : ∀ n, delimAt (cs.drop n) = none := by
  intro n
  by_cases hn : n ≤ cs.length
  · have hall := List.all_eq_true.mp h n (by simp [List.mem_range]; omega)
    simpa [Option.isNone_iff_eq_none] using hall
  · rw [List.drop_eq_nil_of_le (by omega)]
    rfl

theorem matchHere_none_of_noDelim (cs : List Char)
    (h : ∀ n, delimAt (cs.drop n) = none) : matchHere cs = none := by
  have hb : ∀ j, bestLead cs j = none := by
    intro j
    induction j with
    | zero =>
      have h0 := h 0
      rw [List.drop_zero] at h0
      simpa [bestLead] using h0
    | succ j ih => simp [bestLead, h (j + 1), ih]
  unfold matchHere
  rw [hb]

theorem reSplitFuel_noDelim (fuel : Nat) : ∀ frag cs, cs.length ≤ fuel →
    (∀ n, delimAt (cs.drop n) = none) →
    reSplitFuel fuel frag cs = [String.mk (frag.reverse ++ cs)] := by
  induction fuel with
  | zero =>
    intro frag cs hl h
    have hnil : cs = [] := List.eq_nil_of_length_eq_zero (by omega)
    subst hnil
    simp [reSplitFuel]
  | succ fuel ih =>
    intro frag cs hl h
    simp only [reSplitFuel, matchHere_none_of_noDelim cs h]
    cases cs with
    | nil => simp
    | cons c cs' =>
      have h' : ∀ n, delimAt (cs'.drop n) = none := by
        intro n
        have hn := h (n + 1)
        simpa [List.drop_succ_cons] using hn
      simp [ih (c :: frag) cs' (by simpa using hl) h']

theorem split_orgs_noDelim (cell : String) (hne : cell ≠ "")
    (h : noDelimAnywhere cell.toList = true) :
    split_orgs cell = [pyStrip cell] := by
  have hd := delimAt_none_of_noDelim _ h
  have hcell : String.mk cell.toList = cell := by
    cases cell
    rfl
  have hmem : cell ∉ DELIMS := by
    intro hm
    have h0 := hd 0
    rw [List.drop_zero] at h0
    fin_cases hm <;> exact absurd h0 (by decide)
  unfold split_orgs reSplit
  rw [if_neg hne, reSplitFuel_noDelim _ [] cell.toList le_rfl hd]
  simp only [List.reverse_nil, List.nil_append, hcell]
  simp [hne, hmem]

-- ---------------------- Per-chart distinctness lemmas ----------------------

theorem keys_nodup_pie_intent (d : List Record)
    (hd : ∀ r ∈ d, ∀ s, r.intent = some s → s ∈ INTENT_LEVELS) :
    ((pie_intent d).map Prod.fst).Nodup := by
  unfold pie_intent
  refine keys_nodup_pieCore _ _ ?_
  intro l hl
  rcases List.mem_map.mp hl with ⟨r, hr, rfl⟩
  exact labelNA_mem r.intent (hd r hr)

theorem keys_nodup_pie_tenure (d : List Record)
    (hd : ∀ r ∈ d, ∀ s, r.tenure = some s → s ∈ TENURE_LEVELS) :
    ((pie_tenure d).map Prod.fst).Nodup := by
  unfold pie_tenure
  refine keys_nodup_pieCore _ _ ?_
  intro l hl
  rcases List.mem_map.mp hl with ⟨r, hr, rfl⟩
  exact labelNA_mem r.tenure (hd r hr)

theorem keys_nodup_pie_last5 (d : List Record)
    (hd : ∀ r ∈ d, last5Label r.last5 ∈ LAST5_ORDER) :
    ((pie_last5 d).map Prod.fst).Nodup := by
  unfold pie_last5
  apply keys_nodup_pieFromCounts
  have hkeys : ∀ e ∈ groupbySize (d.map (fun r => last5Label r.last5)),
      e.1 ∈ LAST5_ORDER := by
    intro e he
    rcases List.mem_map.mp (key_mem_groupbySize _ e he) with ⟨r, hr, hre⟩
    rw [← hre]
    exact hd r hr
  have hnodupA : ((categoricalSort LAST5_ORDER
      (groupbySize (d.map (fun r => last5Label r.last5)))).map
        Prod.fst).Nodup :=
    keys_nodup_perm (categoricalSort_perm_of_keys LAST5_ORDER _ hkeys)
      (keys_nodup_groupbySize _)
  have hkeysA : ∀ e ∈ categoricalSort LAST5_ORDER
      (groupbySize (d.map (fun r => last5Label r.last5))),
      e.1 ∈ LAST5_ORDER :=
    key_mem_categoricalSort_of_keys _ _ hkeys
  rw [List.map_map]
  rw [show (Prod.fst ∘ fun e : String × Nat => (fmtLast5 e.1, e.2))
      = fmtLast5 ∘ Prod.fst from rfl]
  rw [← List.map_map]
  refine List.Nodup.map_on ?_ hnodupA
  intro x hx y hy hxy
  rcases List.mem_map.mp hx with ⟨ex, hex, rfl⟩
  rcases List.mem_map.mp hy with ⟨ey, hey, rfl⟩
  exact fmtLast5_inj_on _ (hkeysA ex hex) _ (hkeysA ey hey) hxy

-- ---------------------- Claim theorems ----------------------

/-- Claim C1: for every dataset and every filter selection, a record whose
value in a field is absent (unparseable attendance count, out-of-domain
intent or tenure, organization cell tokenizing to the empty set) is
retained by the filter regardless of that field's selection: membership in
`df_filtered` is invariant under changing that field's selection
component. -/
theorem C1_missing_passthrough :
    ∀ (df : List Record) (sel : Selection) (r : Record),
      (r.last5 = none → ∀ a b : Int,
        (r ∈ df_filtered df (Selection.mk a b sel.intents sel.tenures sel.orgs)
          ↔ r ∈ df_filtered df sel)) ∧
      (r.intent = none → ∀ xs : List String,
        (r ∈ df_filtered df
            (Selection.mk sel.yr0 sel.yr1 xs sel.tenures sel.orgs)
          ↔ r ∈ df_filtered df sel)) ∧
      (r.tenure = none → ∀ xs : List String,
        (r ∈ df_filtered df
            (Selection.mk sel.yr0 sel.yr1 sel.intents xs sel.orgs)
          ↔ r ∈ df_filtered df sel)) ∧
      (split_orgs r.org = [] → ∀ xs : List String,
        (r ∈ df_filtered df
            (Selection.mk sel.yr0 sel.yr1 sel.intents sel.tenures xs)
          ↔ r ∈ df_filtered df sel)) := by
  intro df sel r
  refine ⟨?_, ?_, ?_, ?_⟩
  · intro h a b
    rw [mem_df_filtered, mem_df_filtered,
      rangePred_of_none (Selection.mk a b sel.intents sel.tenures sel.orgs) r h,
      rangePred_of_none sel r h]
    exact Iff.rfl
  · intro h xs
    rw [mem_df_filtered, mem_df_filtered,
      intentPred_of_none
        (Selection.mk sel.yr0 sel.yr1 xs sel.tenures sel.orgs) r h,
      intentPred_of_none sel r h]
    exact Iff.rfl
  · intro h xs
    rw [mem_df_filtered, mem_df_filtered,
      tenurePred_of_none
        (Selection.mk sel.yr0 sel.yr1 sel.intents xs sel.orgs) r h,
      tenurePred_of_none sel r h]
    exact Iff.rfl
  · intro h xs
    rw [mem_df_filtered, mem_df_filtered,
      orgPred_of_empty
        (Selection.mk sel.yr0 sel.yr1 sel.intents sel.tenures xs) r h,
      orgPred_of_empty sel r h]
    exact Iff.rfl

/-- Witness for C1: the record with absent tenure is kept even when the
tenure selection is exactly `{"0 to 5 years"}`. -/
theorem C1_witness :
    (⟨some 1, some "Definitely going", "DOT", none⟩ : Record)
      ∈ df_filtered [⟨some 1, some "Definitely going", "DOT", none⟩]
          (Selection.mk 0 5 [] ["0 to 5 years"] []) :=
  ((C1_missing_passthrough
      [⟨some 1, some "Definitely going", "DOT", none⟩]
      (Selection.mk 0 5 [] [] [])
      ⟨some 1, some "Definitely going", "DOT", none⟩).2.2.1
    rfl ["0 to 5 years"]).mpr (by decide)

/-- Counterexample for C2: on the scenario's filtered set the organization
series is `[("DOT", 2), ("Consultant", 1)]`, not the claimed
`[("DOT", 2), ("Consulting", 1)]` — the load-time `replace` only
canonicalizes exact full-cell matches, so the token `"Consultant"` inside
R2's multi-valued cell `"Consultant, DOT"` is not rewritten. -/
theorem C2_counterexample :
    bar_orgs scenarioF = [("DOT", 2), ("Consultant", 1)] ∧
    bar_orgs scenarioF ≠ [("DOT", 2), ("Consulting", 1)] := by
  refine ⟨by decide, by decide⟩

/-- Claim C2 as amended: the scenario filter keeps exactly {R1, R2}, the
intent series is `[("Definitely going",1), ("Probably going",1)]`, and the
organization series is `[("DOT",2), ("Consultant",1)]` (the `"Consultant"`
token is not canonicalized inside a multi-valued cell). -/
theorem C2_scenario :
    scenarioF
        = [⟨some 2, some "Definitely going", "DOT", some "0 to 5 years"⟩,
           ⟨none, some "Probably going", "Consultant, DOT", none⟩] ∧
    pie_intent scenarioF = [("Definitely going", 1), ("Probably going", 1)] ∧
    bar_orgs scenarioF = [("DOT", 2), ("Consultant", 1)] := by
  refine ⟨by decide, by decide, by decide⟩

/-- Claim C3, evaluated at the failing input: a filtered dataset with one
record whose attendance count is absent yields the label
`"Unspecified time"` — not the literal `"Unspecified"` required by the
claim and by the code's own comment (`# Add " year(s)" suffix to labels,
except Unspecified`): lines 173-175 append `" time"` to the Unspecified
bucket too, only suppressing the plural `s`. -/
theorem C3_unspecified_label_bug :
    pie_last5 (df_filtered (BASE_DF [rawAbsLast5]) selAll)
        = [("Unspecified time", 1)] ∧
    ("Unspecified time" : String) ≠ "Unspecified" := by
  refine ⟨by decide, by decide⟩

/-- Counterexample for C4: the out-of-range raw value `"7"` parses to `7`
and stays present (`pd.to_numeric` does not clamp to 0..5), and the record
is then excluded by the full-range filter `[0,5]` — the claim would have
it become absent and pass through. -/
theorem C4_counterexample :
    toNumericCoerce "7" = some 7 ∧
    (normalizeRecord raw7).last5 = some 7 ∧
    df_filtered (BASE_DF [raw7]) selAll = [] := by
  refine ⟨by decide, by decide, by decide⟩

/-- Claim C4 as amended: normalization coerces exactly the unparseable
attendance-count cells to absent, and absent cells then pass the range
test for every selection; a cell that parses — out of range or not —
stays present and is compared against the inclusive range. -/
theorem C4_unparseable_absent :
    ∀ (raw : RawRecord) (sel : Selection),
      ((normalizeRecord raw).last5 = toNumericCoerce raw.last5) ∧
      (toNumericCoerce raw.last5 = none →
        rangePred sel (normalizeRecord raw) = true) ∧
      (∀ v : Int, toNumericCoerce raw.last5 = some v →
        rangePred sel (normalizeRecord raw)
          = (decide (sel.yr0 ≤ v) && decide (v ≤ sel.yr1))) := by
  intro raw sel
  refine ⟨rfl, ?_, ?_⟩
  · intro h
    exact rangePred_of_none sel _ h
  · intro v hv
    have h' : (normalizeRecord raw).last5 = some v := hv
    simp [rangePred, h']

/-- Witness for C4: an unparseable cell becomes absent and passes the
range test. -/
theorem C4_witness :
    toNumericCoerce "zzz" = none ∧
    rangePred selAll (normalizeRecord ⟨"zzz", "", "", ""⟩) = true :=
  ⟨by decide, (C4_unparseable_absent ⟨"zzz", "", "", ""⟩ selAll).2.1 (by decide)⟩

/-- Counterexample for C5: in `"A , and B"` the word `" and "` occurs (at
the position after the comma), so splitting on every delimiter occurrence
gives `{A, B}` — but the code's regex absorbs the space after the comma
into the first match, the `" and "` alternative then no longer matches,
and `split_orgs` returns the token `"and B"`. -/
theorem C5_counterexample :
    split_orgs "A , and B" = ["A", "and B"] ∧
    specTokenize "A , and B" = ["A", "B"] ∧
    ("and B" ∈ split_orgs "A , and B") ∧
    ("and B" ∉ specTokenize "A , and B") := by
  refine ⟨by decide, by decide, by decide, by decide⟩

/-- Claim C5 as amended: splitting is on leftmost non-overlapping regex
matches of a delimiter together with its surrounding whitespace (so a
`" and "` whose surrounding space was absorbed by a preceding match is not
split on), and fragments are discarded when empty or a delimiter token
before trimming (so a whitespace-only cell yields `{""}`). The claim's
concrete instances hold: the three example cells all tokenize to
`{A, B, C}`; duplicates collapse when the result is read as a set; and a
non-empty cell containing no delimiter occurrence at all is returned
whole, trimmed. -/
theorem C5_tokenizer :
    ∀ cell : String,
      (split_orgs "A, B and C" = ["A", "B", "C"]) ∧
      (split_orgs "A/B+C" = ["A", "B", "C"]) ∧
      (split_orgs "A;B and C" = ["A", "B", "C"]) ∧
      (split_orgs "A, A" = ["A", "A"] ∧ (split_orgs "A, A").dedup = ["A"]) ∧
      (split_orgs "A , and B" = ["A", "and B"]) ∧
      (split_orgs " " = [""]) ∧
      (cell ≠ "" → noDelimAnywhere cell.toList = true →
        split_orgs cell = [pyStrip cell]) := by
  intro cell
  exact ⟨by decide, by decide, by decide, ⟨by decide, by decide⟩,
    by decide, by decide, split_orgs_noDelim cell⟩

/-- Witness for C5: a delimiter-free multi-word cell is returned whole. -/
theorem C5_witness :
    split_orgs "Acme Inc" = [pyStrip "Acme Inc"] :=
  (C5_tokenizer "Acme Inc").2.2.2.2.2.2 (by decide) (by decide)

/-- Claim C6: for every dataset and selection, the sum of the counts in
each single-valued field's series (Unspecified bucket included) equals the
number of filtered records. -/
theorem C6_count_conservation :
    ∀ (raw : List RawRecord) (sel : Selection),
      sumCounts (pie_last5 (df_filtered (BASE_DF raw) sel))
          = (df_filtered (BASE_DF raw) sel).length ∧
      sumCounts (pie_intent (df_filtered (BASE_DF raw) sel))
          = (df_filtered (BASE_DF raw) sel).length ∧
      sumCounts (pie_tenure (df_filtered (BASE_DF raw) sel))
          = (df_filtered (BASE_DF raw) sel).length :=
  fun _ _ => ⟨pie_last5_sum _, pie_intent_sum _, pie_tenure_sum _⟩

/-- Counterexample for C7: `bar_orgs` explodes the raw token LIST of each
cell, not its token set — a cell `"DOT, DOT"` contributes two `"DOT"`
mentions, so the series is `[("DOT", 2)]` where counting over token sets
would give `[("DOT", 1)]`. -/
theorem C7_counterexample :
    bar_orgs (df_filtered (BASE_DF [rawDup]) selAll) = [("DOT", 2)] ∧
    countLabel ((df_filtered (BASE_DF [rawDup]) selAll).flatMap
        (fun r => (split_orgs r.org).dedup)) "DOT" = 1 ∧
    ([("DOT", 2)] : List (String × Nat)) ≠ [("DOT", 1)] := by
  refine ⟨by decide, by decide, by decide⟩

/-- Claim C7 as amended: for every filtered dataset, the organization
series counts occurrences per distinct token across the concatenation of
the filtered records' token LISTS (a token repeated within one cell
counts once per repetition), its entries are in non-increasing count
order, every entry's label is a token of some filtered record with a
positive count (no synthetic "Unspecified" bucket), and an absent/empty
cell contributes no tokens. -/
theorem C7_org_series :
    ∀ (raw : List RawRecord) (sel : Selection),
      (∀ k, seriesCount (bar_orgs (df_filtered (BASE_DF raw) sel)) k
        = countLabel ((df_filtered (BASE_DF raw) sel).flatMap
            (fun r => split_orgs r.org)) k) ∧
      (bar_orgs (df_filtered (BASE_DF raw) sel)).Pairwise
        (fun a b => b.2 ≤ a.2) ∧
      (∀ e ∈ bar_orgs (df_filtered (BASE_DF raw) sel),
        (∃ r ∈ df_filtered (BASE_DF raw) sel, e.1 ∈ split_orgs r.org) ∧
          0 < e.2) ∧
      split_orgs "" = [] :=
  fun _ _ =>
    ⟨fun k => bar_orgs_seriesCount _ k, bar_orgs_sorted _,
     fun e he => ⟨bar_orgs_key_mem _ e he, bar_orgs_pos _ e he⟩, rfl⟩

/-- Witness for C7: applied to the scenario's series entry `("DOT", 2)`. -/
theorem C7_witness :
    (("DOT", 2) ∈ bar_orgs scenarioF) ∧
    ((∃ r ∈ scenarioF, "DOT" ∈ split_orgs r.org) ∧ 0 < 2) :=
  ⟨by decide,
   (C7_org_series scenarioRaw scenarioSel).2.2.1 ("DOT", 2) (by decide)⟩

/-- Counterexample for C8: with an inverted range `[3,1]` a record whose
attendance count is absent is still retained (the `isna()` pass-through
fires before the range comparison), so the filtered result is not empty. -/
theorem C8_counterexample :
    df_filtered (BASE_DF [rawAbsLast5]) selInv = BASE_DF [rawAbsLast5] ∧
    df_filtered (BASE_DF [rawAbsLast5]) selInv ≠ [] := by
  refine ⟨by decide, by decide⟩

/-- Claim C8 as amended: an inverted numeric range never raises and
retains exactly the records whose attendance count is absent and which
pass the other three filters — possibly, but not necessarily, empty. -/
theorem C8_inverted_range :
    ∀ (df : List Record) (sel : Selection), sel.yr1 < sel.yr0 →
      df_filtered df sel
        = df.filter (fun r => r.last5.isNone && intentPred sel r &&
            tenurePred sel r && orgPred sel r) := by
  intro df sel h
  unfold df_filtered
  apply List.filter_congr
  intro r _
  have hr : rangePred sel r = r.last5.isNone := by
    cases hv : r.last5 with
    | none => simp [rangePred, hv]
    | some v =>
      simp only [rangePred, hv, Option.isNone_some]
      by_cases h1 : sel.yr0 ≤ v
      · have h2 : ¬ v ≤ sel.yr1 := by omega
        simp [h2]
      · simp [h1]
  rw [hr]

/-- Witness for C8: the inverted range `[3,1]` applied to the one-record
absent-count dataset. -/
theorem C8_witness :
    (1 : Int) < 3 ∧
    df_filtered (BASE_DF [rawAbsLast5]) selInv
      = (BASE_DF [rawAbsLast5]).filter
          (fun r => r.last5.isNone && intentPred selInv r &&
            tenurePred selInv r && orgPred selInv r) :=
  ⟨by decide, C8_inverted_range (BASE_DF [rawAbsLast5]) selInv (by decide)⟩

/-- Claim C9: a raw intent or tenure value outside its fixed domain is
left unmapped (absent) by normalization; filtering then passes such a
record through, and aggregation counts it in the Unspecified bucket —
the bucket's count is exactly the number of filtered records absent in
that field. -/
theorem C9_unmapped_values :
    ∀ (s : String) (sel : Selection) (raw : List RawRecord),
      (s ∉ INTENT_LEVELS → toCategorical INTENT_LEVELS s = none) ∧
      (s ∉ TENURE_LEVELS → toCategorical TENURE_LEVELS s = none) ∧
      (∀ r : Record, r.intent = none → intentPred sel r = true) ∧
      (∀ r : Record, r.tenure = none → tenurePred sel r = true) ∧
      (seriesCount (pie_intent (df_filtered (BASE_DF raw) sel)) "Unspecified"
        = ((df_filtered (BASE_DF raw) sel).filter
            (fun r => r.intent.isNone)).length) ∧
      (seriesCount (pie_tenure (df_filtered (BASE_DF raw) sel)) "Unspecified"
        = ((df_filtered (BASE_DF raw) sel).filter
            (fun r => r.tenure.isNone)).length) := by
  intro s sel raw
  refine ⟨fun h => if_neg h, fun h => if_neg h,
    fun r h => intentPred_of_none sel r h,
    fun r h => tenurePred_of_none sel r h, ?_, ?_⟩
  · have hF : ∀ r ∈ df_filtered (BASE_DF raw) sel,
        ∀ s', r.intent = some s' → s' ∈ INTENT_LEVELS :=
      fun r hr => BASE_DF_intent (mem_of_mem_df_filtered hr)
    rw [pie_intent_seriesCount _ hF]
    exact countLabel_labelNA (fun r => r.intent) _
      (fun r hr hc => absurd (hF r hr _ hc) (by decide))
  · have hF : ∀ r ∈ df_filtered (BASE_DF raw) sel,
        ∀ s', r.tenure = some s' → s' ∈ TENURE_LEVELS :=
      fun r hr => BASE_DF_tenure (mem_of_mem_df_filtered hr)
    rw [pie_tenure_seriesCount _ hF]
    exact countLabel_labelNA (fun r => r.tenure) _
      (fun r hr hc => absurd (hF r hr _ hc) (by decide))

/-- Witness for C9: the out-of-domain intent `"Maybe"` is unmapped, and on
the scenario dataset under the all-pass selection the intent series'
Unspecified bucket counts exactly the one record with absent intent. -/
theorem C9_witness :
    toCategorical INTENT_LEVELS "Maybe" = none ∧
    seriesCount (pie_intent (df_filtered (BASE_DF scenarioRaw) selAll))
        "Unspecified"
      = ((df_filtered (BASE_DF scenarioRaw) selAll).filter
          (fun r => r.intent.isNone)).length :=
  ⟨(C9_unmapped_values "Maybe" selAll scenarioRaw).1 (by decide),
   (C9_unmapped_values "Maybe" selAll scenarioRaw).2.2.2.2.1⟩

/-- Claim C10: in each of the four series produced over a filtered
dataset, the labels are pairwise distinct (for the attendance-count
series, under the slider's own bounds 0 ≤ yr0 and yr1 ≤ 5, which the UI
guarantees). -/
theorem C10_labels_distinct :
    ∀ (raw : List RawRecord) (sel : Selection),
      (0 ≤ sel.yr0 → sel.yr1 ≤ 5 →
        ((pie_last5 (df_filtered (BASE_DF raw) sel)).map Prod.fst).Nodup) ∧
      ((pie_intent (df_filtered (BASE_DF raw) sel)).map Prod.fst).Nodup ∧
      ((pie_tenure (df_filtered (BASE_DF raw) sel)).map Prod.fst).Nodup ∧
      ((bar_orgs (df_filtered (BASE_DF raw) sel)).map Prod.fst).Nodup := by
  intro raw sel
  refine ⟨?_, ?_, ?_, keys_nodup_bar_orgs _⟩
  · intro h0 h5
    refine keys_nodup_pie_last5 _ ?_
    intro r hr
    have hp := (mem_df_filtered.mp hr).2.1
    exact last5Label_mem_order hp h0 h5
  · exact keys_nodup_pie_intent _
      (fun r hr => BASE_DF_intent (mem_of_mem_df_filtered hr))
  · exact keys_nodup_pie_tenure _
      (fun r hr => BASE_DF_tenure (mem_of_mem_df_filtered hr))

/-- Witness for C10: label distinctness of the attendance series on the
scenario, with the slider bounds discharged. -/
theorem C10_witness :
    ((pie_last5 (df_filtered (BASE_DF scenarioRaw) scenarioSel)).map
      Prod.fst).Nodup :=
  (C10_labels_distinct scenarioRaw scenarioSel).1 (by decide) (by decide)
